import Mathlib

/-
Verification of the convolution-block core of the KPConv-Triplane repository
(src/models/blocks.py) through a shallow embedding in Lean 4.

Conventions used by the embedding:
  * machine floats become exact numbers: ℚ where the properties are decidable
    and ℝ where square roots and exponentials occur; tensors become lists
    (when index bookkeeping matters) or total functions ℕ → ... → ℝ
    (when only batched algebra matters);
  * the sentinel ("shadow") padding trick of the source is embedded literally:
    one extra row is appended and indices equal to the original length hit it;
  * learned external submodules that live outside src/ (the Mlps mapping and
    grid_sample from the tensor runtime, the recursive offset sub-operator)
    are abstracted as function parameters, while every parameter tensor that
    the blocks own (kernel points, factor planes, weight bank, biases) is an
    explicit field of the embedded state.
-/

set_option maxHeartbeats 1000000

open scoped BigOperators

/-! ### Leaf utilities (section 4.1 of the spec, src/models/blocks.py lines 38-136) -/

/-- Embedding of `gather(x, idx)` restricted to a flat index list: row `i` of the
result is row `idx i` of `x` (out of range gives the default `[]`). -/
def gatherRows (x : List (List ℚ)) (idx : List ℕ) : List (List ℚ) :=
  idx.map (fun i => x.getD i [])

/-- Embedding of `torch.zeros_like(x[:1, :])`: one row of zeros with the width of
the first row of `x`. -/
def zeroRowLike (x : List (List ℚ)) : List ℚ :=
  (x.headD []).map (fun _ => (0 : ℚ))

/-- Embedding of `closest_pool(x, inds)` (lines 82-94): append a zero sentinel row
to `x`, then gather the row named by the first column of `inds`. -/
def closest_pool (x : List (List ℚ)) (inds : List (List ℕ)) : List (List ℚ) :=
  gatherRows (x ++ [zeroRowLike x]) (inds.map (fun r => r.headD 0))

/-! ### Influence functions (lines 72-79 and 609-626) -/

/-- Embedding of `radius_gaussian(sq_r, sig, eps=1e-9)` (lines 72-79):
`exp(-sq_r / (2 sig^2 + eps))`. -/
noncomputable def radius_gaussian (sq_r sig eps : ℝ) : ℝ :=
  Real.exp (-sq_r / (2 * sig ^ 2 + eps))

/-- Embedding of the linear influence weight
`torch.clamp(1 - torch.sqrt(sq_distances) / KP_extent, min=0.0)` (line 617). -/
noncomputable def linearInfluence (sq_d extent : ℝ) : ℝ :=
  max (1 - Real.sqrt sq_d / extent) 0

/-! ### Configuration dispatch (lines 609-634 and 674-714) -/

/-- Embedding of the `KP_influence` string dispatch in `KPConv.forward`
(lines 609-626): it produces the influence function applied to each squared
distance, or raises `ValueError` on an unrecognized string. -/
noncomputable def kpInfluenceFn (kind : String) (extent : ℝ) : Except String (ℝ → ℝ) :=
  if kind = "constant" then Except.ok (fun _ => 1)
  else if kind = "linear" then Except.ok (fun sq_d => linearInfluence sq_d extent)
  else if kind = "gaussian" then Except.ok (fun sq_d => radius_gaussian sq_d (extent * 0.3) 1e-9)
  else Except.error "Unknown influence function type (config.KP_influence)"

/-- Embedding of `torch.argmin` over a list: index of the first minimal element. -/
def argminIdx {α : Type} [LinearOrder α] : List α → ℕ
  | [] => 0
  | a :: rest =>
    match rest with
    | [] => 0
    | _ :: _ =>
      let j := argminIdx rest
      if a ≤ rest.getD j a then 0 else j + 1

/-- Embedding of the `aggregation_mode` dispatch in `KPConv.forward`
(lines 629-634), for one neighbor of one point: `closest` keeps only the weight
of the kernel point of minimal squared distance, `sum` keeps the row, anything
else raises `ValueError` (the quotes of the source message are elided). -/
def kpAggregate (mode : String) (sqdRow : List ℚ) (wRow : List ℚ) : Except String (List ℚ) :=
  if mode = "closest" then
    Except.ok (wRow.enum.map (fun p => if p.1 = argminIdx sqdRow then p.2 else 0))
  else if mode = "sum" then Except.ok wRow
  else Except.error "Unknown convolution mode. Should be closest or sum"

/-- Tags for the concrete block classes that `block_decider` can instantiate. -/
inductive BlockKind : Type
  | unary : BlockKind
  | simple : BlockKind
  | resnetb : BlockKind
  | maxPool : BlockKind
  | globalAverage : BlockKind
  | nearestUpsample : BlockKind
deriving DecidableEq

/-- Block-name strings accepted by the `simple` arm of `block_decider`. -/
def simpleNames : List String :=
  ["simple", "simple_deformable", "simple_invariant", "simple_equivariant",
   "simple_strided", "simple_deformable_strided", "simple_invariant_strided",
   "simple_equivariant_strided"]

/-- Block-name strings accepted by the `resnetb` arm of `block_decider`. -/
def resnetbNames : List String :=
  ["resnetb", "resnetb_invariant", "resnetb_equivariant", "resnetb_deformable",
   "resnetb_strided", "resnetb_deformable_strided", "resnetb_equivariant_strided",
   "resnetb_invariant_strided"]

/-- Embedding of the factory `block_decider` (lines 674-714): map a block-name
string to the block class it instantiates, or raise `ValueError` naming the
unknown string. -/
def block_decider (block_name : String) : Except String BlockKind :=
  if block_name = "unary" then Except.ok BlockKind.unary
  else if block_name ∈ simpleNames then Except.ok BlockKind.simple
  else if block_name ∈ resnetbNames then Except.ok BlockKind.resnetb
  else if block_name = "max_pool" ∨ block_name = "max_pool_wide" then Except.ok BlockKind.maxPool
  else if block_name = "global_average" then Except.ok BlockKind.globalAverage
  else if block_name = "nearest_upsample" then Except.ok BlockKind.nearestUpsample
  else Except.error ("Unknown block name in the architecture definition : " ++ block_name)

/-! ### Bounds check of the neighbor table (lines 547-555 and 320-341) -/

/-- Embedding of `torch.max(neighb_inds)` over the whole table. -/
def tableMax (inds : List (List ℕ)) : ℕ :=
  (inds.map (fun r => r.foldr max 0)).foldr max 0

/-- Embedding of the bounds check of `KPConv.forward` (lines 551-554): after the
sentinel row is appended the code compares `torch.max(neighb_inds)` with
`s_pts.shape[0]` and, when the maximum reaches it, prints a diagnostic carrying
that offending index and the table size; the diagnostic is modelled as the
optional pair it prints. -/
def kpconvBoundsWarning (inds : List (List ℕ)) (paddedLen : ℕ) : Option (ℕ × ℕ) :=
  if paddedLen ≤ tableMax inds then some (tableMax inds, paddedLen) else none

/-- Embedding of the diagnostics of `TriplaneConv.forward` (lines 320-341): that
forward contains no bounds check and prints nothing, so its diagnostic output is
constantly `none`. -/
def triplaneBoundsWarning (_inds : List (List ℕ)) (_paddedLen : ℕ) : Option (ℕ × ℕ) :=
  none

/-! ### Kernel-point count at construction (lines 352-454) -/

/-- Embedding of the kernel-point count chosen by `KPConv.__init__` (lines
374-375): the line `self.K = kernel_size` is commented out in the source and the
count is hardcoded to `10` whatever `kernel_size` was configured. -/
def kpconvK (_kernel_size : ℕ) : ℕ := 10

/-- Number of canonical offsets requested from the kernel-point layout provider:
`init_KP` calls `load_kernels(radius, self.K, ...)` (lines 480-483), so it asks
for `kpconvK kernel_size` offsets. -/
def kpconvNumKernelOffsets (kernel_size : ℕ) : ℕ := kpconvK kernel_size

/-- Shape of the static weight tensor allocated by `KPConv.__init__` (line 422):
`(self.K, in_channels, out_channels)`. -/
def kpconvWeightsShape (kernel_size in_channels out_channels : ℕ) : ℕ × ℕ × ℕ :=
  (kpconvK kernel_size, in_channels, out_channels)

/-! ### Deformable in-range re-packing (lines 581-605) -/

/-- Embedding of `torch.any(sq_distances < KP_extent ** 2, dim=2)` for one point:
one boolean per neighbor, true when some kernel point is strictly within the
squared extent. -/
def inRangeRow {α : Type} [LinearOrder α] (sqdRow : List (List α)) (ext2 : α) : List Bool :=
  sqdRow.map (fun ds => ds.any (fun d2 => decide (d2 < ext2)))

/-- Embedding of `torch.sum(in_range, dim=1)` for one row of booleans. -/
def countTrue (bs : List Bool) : ℕ := bs.countP id

/-- Embedding of `new_max_neighb = torch.max(torch.sum(in_range, dim=1))`
(line 590): the largest in-range count over the batch. -/
def batchNewMax (rows : List (List Bool)) : ℕ :=
  (rows.map countTrue).foldr max 0

/-- Embedding of `torch.topk(in_range, new_max_neighb, dim=1)` on a 0/1 row: the
positions of the `m` largest entries, descending, hence all true positions (in
index order) followed by false positions, truncated to `m`. -/
def topkIdx (bs : List Bool) (m : ℕ) : List ℕ :=
  (((List.range bs.length).filter (fun p => bs.getD p false)) ++
    ((List.range bs.length).filter (fun p => !bs.getD p false))).take m

/-- Embedding of the re-packing of one neighbor row (lines 593-605): gather the
original indices at the top-k positions, then remap the discarded slots (where
the in-range boolean is false) to the sentinel index `S = s_pts.shape[0] - 1`
via `new_neighb_inds *= bool; new_neighb_inds -= (bool - 1) * S`. -/
def repackRow (indsRow : List ℕ) (bs : List Bool) (m S : ℕ) : List ℕ :=
  (topkIdx bs m).map (fun p => if bs.getD p false then indsRow.getD p 0 else S)

/-- Embedding of the whole deformable filtering step of `KPConv.forward`
(lines 581-605): from the per-point, per-neighbor, per-kernel-point squared
distances, build the in-range booleans, the new padded width, and the re-packed
neighbor table. -/
def deformRepack {α : Type} [LinearOrder α] (neighbInds : List (List ℕ))
    (sqd : List (List (List α))) (ext2 : α) (S : ℕ) : List (List ℕ) :=
  let rows := sqd.map (fun r => inRangeRow r ext2)
  let m := batchNewMax rows
  (List.zip neighbInds rows).map (fun pr => repackRow pr.1 pr.2 m S)

/-! ### Bilinear interpolation of a factor plane (lines 204-243) -/

/-- Cell data computed by `bilinear_interpolation` along one axis: the two grid
lines `x1 ≤ x2` and the two weights `wa = x2 - x` and `wb = x - x1`. -/
structure AxisCell : Type where
  x1 : ℤ
  x2 : ℤ
  wa : ℚ
  wb : ℚ
deriving DecidableEq

/-- Embedding of the per-axis computation of `bilinear_interpolation` (lines
221-233): scale the [0,1] coordinate by `res - 1`, clamp into
`[0, res - 1 - 1e-5]`, floor to get the lower grid line, clamp its successor to
`res - 1`, and form the two interpolation weights from the unclamped
coordinate. -/
def axisCell (res : ℕ) (p : ℚ) : AxisCell :=
  let x : ℚ := p * ((res : ℚ) - 1)
  let x1 : ℤ := ⌊max 0 (min x ((res : ℚ) - 1 - 1 / 100000))⌋
  let x2 : ℤ := max 0 (min (x1 + 1) ((res : ℤ) - 1))
  ⟨x1, x2, (x2 : ℚ) - x, x - (x1 : ℚ)⟩

/-- Embedding of bilinear sampling of one factor plane: combine the four corner
values of the cell selected by `bilinear_interpolation` with its four weights
`w1 = wa_x wa_y, w2 = wb_x wa_y, w3 = wa_x wb_y, w4 = wb_x wb_y` at the indices
`(y1,x1), (y1,x2), (y2,x1), (y2,x2)` (lines 230-241). -/
def bilinearSample (g : ℤ → ℤ → ℚ) (res : ℕ) (px py : ℚ) : ℚ :=
  let cx := axisCell res px
  let cy := axisCell res py
  cx.wa * cy.wa * g cy.x1 cx.x1 + cx.wb * cy.wa * g cy.x1 cx.x2 +
    cx.wa * cy.wb * g cy.x2 cx.x1 + cx.wb * cy.wb * g cy.x2 cx.x2

/-! ### Function-tensor embedding of the two convolution operators -/

/-- Two-index real tensor (row, column). -/
abbrev Mat2 : Type := ℕ → ℕ → ℝ

/-- Three-index real tensor. -/
abbrev Ten3 : Type := ℕ → ℕ → ℕ → ℝ

/-- Signature of the tri-plane tensor-field sampler. Modelled from the spec:
`tensor_field` runs the external `F.grid_sample` of the tensor runtime on the
three factor planes and the learned `Mlps` mapping of `utils/TriplaneConv_util`
(neither lives under src/), mapping the factor planes and the batch of 3-D
coordinates `(n, j, d)` to a flattened `(n * k + j, channel)` sample matrix. -/
abbrev TFFun : Type := Ten3 → Ten3 → Mat2

/-- Embedding of `s_pts = torch.cat((s_pts, torch.zeros_like(s_pts[:1, :]) + 1e6), 0)`
(lines 328 and 548): index `sLen` now holds the far-away shadow point. -/
noncomputable def shadowPadPts (s_pts : Mat2) (sLen : ℕ) : Mat2 :=
  fun i d => if i = sLen then 1000000 else s_pts i d

/-- Embedding of `x = torch.cat((x, torch.zeros_like(x[:1, :])), 0)` (lines 330
and 637): index `xRows` now holds the zero shadow feature. -/
noncomputable def shadowPadFeat (x : Mat2) (xRows : ℕ) : Mat2 :=
  fun i c => if i = xRows then 0 else x i c

/-- Embedding of gathering, centering and radius-normalizing the neighborhood
(lines 331-333): `xyz = (s_pts[neighb_inds, :] - q_pts.unsqueeze(1)) / neighb_r`. -/
noncomputable def normNeighbors (q_pts spad : Mat2) (indF : ℕ → ℕ → ℕ) (r : ℝ) : Ten3 :=
  fun n j d => (spad (indF n j) d - q_pts n d) / r

/-- Embedding of `nn.Linear(cin, cout)` applied to one feature vector:
`out o = Σ i, W o i * v i + b o`. -/
noncomputable def linearApply (W : Mat2) (b : ℕ → ℝ) (cin : ℕ) (v : ℕ → ℝ) : ℕ → ℝ :=
  fun o => (∑ i in Finset.range cin, W o i * v i) + b o

/-- Embedding of `TriplaneConv.depth_wise_conv` (lines 264-286): select the
first-column neighbor features, view the tensor-field samples as a
`(N, k, cin)` filter, contract with `einsum('nki,ni->ni')`, then apply the
final linear layer. -/
noncomputable def depth_wise_conv (cin k : ℕ) (linW : Mat2) (linb : ℕ → ℝ)
    (tfOut : Mat2) (xpad : Mat2) (indF : ℕ → ℕ → ℕ) : Mat2 :=
  let xsel : Mat2 := fun n i => xpad (indF n 0) i
  let filt : Ten3 := fun n j i => tfOut (n * k + j) i
  let y : Mat2 := fun n i => ∑ j in Finset.range k, filt n j i * xsel n i
  fun n o => linearApply linW linb cin (y n) o

/-- Embedding of `TriplaneConv.direct_conv` (lines 308-318) in the tri-plane
branch: gather all neighbor features, view the tensor-field samples as a
`(N, k, cin, cout)` kernel, and contract with `einsum('nki,nkio->no')`. -/
noncomputable def direct_conv (cin cout k : ℕ) (tfOut : Mat2) (xpad : Mat2)
    (indF : ℕ → ℕ → ℕ) : Mat2 :=
  let xg : Ten3 := fun n j i => xpad (indF n j) i
  let kernel : ℕ → ℕ → ℕ → ℕ → ℝ := fun n j i o => tfOut (n * k + j) (i * cout + o)
  fun n o => ∑ j in Finset.range k, ∑ i in Finset.range cin, xg n j i * kernel n j i o

/-- Modelled from the spec: `feat_trans_pointnet(point_input, kernel, m)` of
`utils/TriplaneConv_util` (not under src/) maps each feature row through the
m-basis weight bank, producing an `(m, cout)` block per row. -/
noncomputable def featTransPointnet (x : Mat2) (matrice : Mat2) (cin cout : ℕ) :
    ℕ → ℕ → ℕ → ℝ :=
  fun r t o => ∑ i in Finset.range cin, x r i * matrice i (t * cout + o)

/-- Embedding of `TriplaneConv.conv_with_trick` (lines 288-306) in the tri-plane
branch with `k_cin = False`: view the tensor-field samples as `(N, k, m)`
scores, transform the first-column neighbor features through the weight bank,
and assemble with `einsum('nmo,nkm->no')`. -/
noncomputable def conv_with_trick (cin cout m k : ℕ) (matrice : Mat2)
    (tfOut : Mat2) (xpad : Mat2) (indF : ℕ → ℕ → ℕ) : Mat2 :=
  let score : Ten3 := fun n j t => tfOut (n * k + j) t
  let xft : ℕ → ℕ → ℕ → ℝ := fun n t o => featTransPointnet xpad matrice cin cout (indF n 0) t o
  fun n o => ∑ t in Finset.range m, ∑ j in Finset.range k, xft n t o * score n j t

/-- State of one `TriplaneConv` instance: every attribute assigned by
`TriplaneConv.__init__` (lines 146-190) that the forward path can read. The
hardcoded mode flags are fields because they are instance attributes in the
source. -/
structure TriplaneState : Type where
  calc_scores : String
  depth_wise : Bool
  with_trick : Bool
  k_cin : Bool
  no_mlp : Bool
  method : String
  baseGridSize : ℕ
  neiGridSize : ℕ
  n_comp : ℕ
  m : ℕ
  cin : ℕ
  cout : ℕ
  nei_plane : Ten3
  matrice : Mat2
  linW : Mat2
  linb : ℕ → ℝ

/-- Embedding of `TriplaneConv.__init__` (lines 146-190). The random draws
feeding the learned tensors and the final linear layer are passed in explicitly
(`randPlanes`, `randMat`, `linW`, `linb`); `init_one_svd` scales the plane draw
by `0.1`. The `aggregation_mode` argument is accepted exactly as in the source,
whose constructor body never reads it. -/
noncomputable def triplaneInit (_kernel_size _p_dim : ℕ) (in_channels out_channels layer_ind : ℕ)
    (_aggregation_mode : String) (randPlanes : Ten3) (randMat : Mat2)
    (linW : Mat2) (linb : ℕ → ℝ) : TriplaneState :=
  { calc_scores := "softmax"
    depth_wise := false
    with_trick := false
    k_cin := false
    no_mlp := false
    method := "Triplane"
    baseGridSize := 128
    neiGridSize := 128 / 2 ^ layer_ind
    n_comp := 8
    m := 8
    cin := in_channels
    cout := out_channels
    nei_plane := fun p r c => (1 / 10 : ℝ) * randPlanes p r c
    matrice := randMat
    linW := linW
    linb := linb }

/-- Embedding of `TriplaneConv.forward` (lines 320-341): pad the support points
with the far shadow point and the features with a zero row, gather and center
the neighborhoods, normalize by the neighborhood radius, then dispatch on the
mode flags. The first component is the instance state after the call (the
source assigns no attribute, so it is returned untouched); the second is the
diagnostic stream (the source prints nothing). -/
noncomputable def triplaneForward (s : TriplaneState) (tf : TFFun)
    (q_pts s_pts : Mat2) (sLen : ℕ) (indsL : List (List ℕ)) (k : ℕ)
    (neighb_r : ℝ) (x : Mat2) (xRows : ℕ) :
    TriplaneState × Option (ℕ × ℕ) × Mat2 :=
  let spad := shadowPadPts s_pts sLen
  let xpad := shadowPadFeat x xRows
  let indF : ℕ → ℕ → ℕ := fun n j => (indsL.getD n []).getD j 0
  let xyz := normNeighbors q_pts spad indF neighb_r
  let tfOut := tf s.nei_plane xyz
  if s.depth_wise then (s, none, depth_wise_conv s.cin k s.linW s.linb tfOut xpad indF)
  else if s.with_trick then (s, none, conv_with_trick s.cin s.cout s.m k s.matrice tfOut xpad indF)
  else (s, none, direct_conv s.cin s.cout k tfOut xpad indF)

/-- Embedding of `torch.sigmoid`. -/
noncomputable def sigmoid (t : ℝ) : ℝ := 1 / (1 + Real.exp (-t))

/-- State of one `KPConv` instance: the attributes assigned by
`KPConv.__init__` (lines 352-454) that the forward path can read or write. The
learned `nn.Linear` generator of kernel points is carried as its weight matrix
`genW` and bias `genB`; `min_d2`, `deformed_KP` and `offset_features` are the
running scratch attributes, `none` until a deformable forward writes them. -/
structure KPConvState : Type where
  K : ℕ
  p_dim : ℕ
  cin : ℕ
  cout : ℕ
  KP_extent : ℝ
  KP_influence : String
  aggregation_mode : String
  deformable : Bool
  modulated : Bool
  generative_kernel_points : Bool
  conv_method : String
  layer_ind : ℕ
  kernel_points : Mat2
  weights : Ten3
  matrice : Mat2
  nei_plane : Ten3
  offset_bias : ℕ → ℝ
  genW : Mat2
  genB : ℕ → ℝ
  min_d2 : Option Mat2
  deformed_KP : Option Ten3
  offset_features : Option Mat2

/-- Signature of the auxiliary offset sub-operator: the source calls
`self.offset_conv(q_pts, s_pts, neighb_inds, x)`, a non-deformable instance of
the same operator, whose output features are all this forward consumes. -/
abbrev OffsetFn : Type := Mat2 → Mat2 → List (List ℕ) → Mat2 → Mat2

/-- Hardcoded table `self.layer_ind2neighbor = [28, 32, 41, 40, 36]` (line 402). -/
def layer_ind2neighbor : List ℕ := [28, 32, 41, 40, 36]

/-- Embedding of `KPConv.forward` (lines 505-661). Inputs: query points,
support points with their count `sLen`, the neighbor table `indsL` of width
`k`, features `x` with row count `xRows`. The result is the instance state
after the call, the diagnostic stream of the bounds check, and the output
features (an `Except`, since the influence and aggregation dispatches raise on
unrecognized strings). -/
noncomputable def kpconvForward (offsetFwd : OffsetFn) (tf : TFFun) (s : KPConvState)
    (q_pts s_pts : Mat2) (sLen : ℕ) (indsL : List (List ℕ)) (k : ℕ)
    (x : Mat2) (xRows : ℕ) :
    KPConvState × Option (ℕ × ℕ) × Except String Mat2 :=
  -- offset generation (lines 514-541)
  let offsetRaw : Mat2 := fun n t => offsetFwd q_pts s_pts indsL x n t + s.offset_bias t
  let unscaled : Ten3 := fun n m d => offsetRaw n (m * s.p_dim + d)
  let modulations : Mat2 := fun n m => 2 * sigmoid (offsetRaw n (s.p_dim * s.K + m))
  let offsets : Ten3 := fun n m d => unscaled n m d * s.KP_extent
  -- shadow padding and bounds check (lines 547-555)
  let spad := shadowPadPts s_pts sLen
  let warn := kpconvBoundsWarning indsL (sLen + 1)
  let indF : ℕ → ℕ → ℕ := fun n j => (indsL.getD n []).getD j 0
  -- gather and center the neighborhoods (lines 555-558)
  let neighbors : Ten3 := fun n j d => spad (indF n j) d - q_pts n d
  -- kernel point positions (lines 562-573)
  let deformedKPpts : Ten3 :=
    fun n m d => (if s.deformable then offsets n m d else 0) + s.kernel_points m d
  let L2N := layer_ind2neighbor.getD s.layer_ind 0
  let flatNb : Mat2 := fun n t => if t / 3 < k then neighbors n (t / 3) (t % 3) else -1
  let genKP : Ten3 :=
    fun n m d => (∑ t in Finset.range (L2N * 3), s.genW (m * 3 + d) t * flatNb n t) + s.genB (m * 3 + d)
  let usedKP : Ten3 := if s.generative_kernel_points then genKP else deformedKPpts
  -- squared distances (lines 575-578)
  let sqd : Ten3 := fun n j m => ∑ d in Finset.range s.p_dim, (neighbors n j d - usedKP n m d) ^ 2
  -- deformable in-range filtering (lines 581-605)
  let N := indsL.length
  let sqdLists : List (List (List ℝ)) :=
    (List.range N).map (fun n => (List.range k).map (fun j => (List.range s.K).map (fun m => sqd n j m)))
  let minD2 : Mat2 := fun n m => ((List.range k).map (fun j => sqd n j m)).foldr min (sqd n 0 m)
  let rows : List (List Bool) := sqdLists.map (fun r => inRangeRow r (s.KP_extent ^ 2))
  let kNew := if s.deformable then batchNewMax rows else k
  let newIndsL := if s.deformable then deformRepack indsL sqdLists (s.KP_extent ^ 2) sLen else indsL
  let sqdG : Ten3 :=
    if s.deformable then (fun n j m => sqd n ((topkIdx (rows.getD n []) kNew).getD j 0) m) else sqd
  let nindF : ℕ → ℕ → ℕ := fun n j => (newIndsL.getD n []).getD j 0
  -- scratch attributes written by a deformable forward (lines 517, 563, 584)
  let stateOut : KPConvState :=
    if s.deformable then
      { s with
        min_d2 := some minD2
        deformed_KP := some (fun n m d => offsets n m d + s.kernel_points m d)
        offset_features := some offsetRaw }
    else s
  let featsOut : Except String Mat2 := do
    -- influence weights (lines 609-626), already transposed to (n, m, j)
    let allW : Ten3 ←
      if s.KP_influence = "constant" then pure (fun _ _ _ => 1)
      else if s.KP_influence = "linear" then
        pure (fun n m j => linearInfluence (sqdG n j m) s.KP_extent)
      else if s.KP_influence = "gaussian" then
        pure (fun n m j => radius_gaussian (sqdG n j m) (s.KP_extent * 0.3) 1e-9)
      else Except.error "Unknown influence function type (config.KP_influence)"
    -- aggregation mode (lines 629-634)
    let allW2 : Ten3 ←
      if s.aggregation_mode = "closest" then
        pure (fun n m j =>
          allW n m j * (if m = argminIdx ((List.range s.K).map (fun mm => sqdG n j mm)) then 1 else 0))
      else if s.aggregation_mode = "sum" then pure allW
      else Except.error "Unknown convolution mode. Should be closest or sum"
    -- gather features and apply the distance weights (lines 637-647)
    let xpad := shadowPadFeat x xRows
    let neighbX : Ten3 := fun n j i => xpad (nindF n j) i
    let wf : Ten3 := fun n m i => ∑ j in Finset.range kNew, allW2 n m j * neighbX n j i
    let wf2 : Ten3 := if s.deformable && s.modulated then (fun n m i => wf n m i * modulations n m) else wf
    -- output (lines 649-661)
    if s.conv_method = "Triplanes" then
      let relCoord : Ten3 := fun n m d => usedKP n m d - q_pts n d
      let tfOut := tf s.nei_plane relCoord
      let kernel : ℕ → ℕ → ℕ → ℕ → ℝ := fun n m i o => tfOut (n * s.K + m) (i * s.cout + o)
      pure (fun n o => ∑ m in Finset.range s.K, ∑ i in Finset.range s.cin, wf2 n m i * kernel n m i o)
    else
      pure (fun n o => ∑ m in Finset.range s.K, ∑ i in Finset.range s.cin, wf2 n m i * s.weights m i o)
  (stateOut, warn, featsOut)

/-! ### Claim theorems -/

/-- Full list of block-name strings recognized by `block_decider`. -/
def recognizedBlockNames : List String :=
  "unary" :: simpleNames ++ resnetbNames ++
    ["max_pool", "max_pool_wide", "global_average", "nearest_upsample"]

/-- C7: the claim says a KPConv constructed with configured kernel-point count
K uses exactly K kernel points. The source hardcodes `self.K = 10`, so with the
configured count 15 the layout provider is asked for 10 offsets and the weight
tensor gets first dimension 10: the configuration value is ignored. -/
theorem C7_kpconv_ignores_configured_kernel_count :
    kpconvK 15 = 10 ∧ kpconvNumKernelOffsets 15 ≠ 15 ∧
      kpconvWeightsShape 15 4 6 = (10, 4, 6) := by
  decide

/-- C8: `closest_pool` depends only on the first column of the neighbor table,
and each output row is the row of the zero-extended feature matrix selected by
that first column. -/
theorem C8_closest_pool_first_column (x : List (List ℚ)) (inds inds' : List (List ℕ)) (n : ℕ)
    (hfirst : inds.map (fun r => r.headD 0) = inds'.map (fun r => r.headD 0))
    (hn : n < inds.length) :
    closest_pool x inds = closest_pool x inds' ∧
      (closest_pool x inds).getD n [] =
        (x ++ [zeroRowLike x]).getD ((inds.getD n []).headD 0) [] := by
  constructor
  · unfold closest_pool
    rw [hfirst]
  · unfold closest_pool gatherRows
    have hn1 : n < ((inds.map (fun r => r.headD 0)).map
        (fun i => (x ++ [zeroRowLike x]).getD i [])).length := by
      simpa using hn
    rw [List.getD_eq_getElem _ _ hn1, List.getD_eq_getElem _ _ hn]
    simp

/-- Witness for C8 at a concrete input: two tables agreeing on the first column
only. -/
theorem C8_closest_pool_first_column_witness :
    (([[0, 5]] : List (List ℕ)).map (fun r => r.headD 0) =
        ([[0, 7]] : List (List ℕ)).map (fun r => r.headD 0) ∧ 0 < 1) ∧
      (closest_pool [[(1 : ℚ), 2]] [[0, 5]] = closest_pool [[(1 : ℚ), 2]] [[0, 7]] ∧
        (closest_pool [[(1 : ℚ), 2]] [[0, 5]]).getD 0 [] =
          ([[(1 : ℚ), 2]] ++ [zeroRowLike [[(1 : ℚ), 2]]]).getD
            ((([[0, 5]] : List (List ℕ)).getD 0 []).headD 0) []) :=
  ⟨⟨by decide, by decide⟩,
    C8_closest_pool_first_column [[(1 : ℚ), 2]] [[0, 5]] [[0, 7]] 0 (by decide) (by decide)⟩

/-- C2, counterexample to the claim as stated: with the neighbor table `[[5]]`
and padded support size 3 the index 5 is out of bounds, yet the forward of
`TriplaneConv` emits no diagnostic at all (only `KPConv.forward` does), so it
is not true that every convolution forward detects and reports the violation. -/
theorem C2_counterexample_triplane_has_no_check :
    3 ≤ tableMax [[5]] ∧ triplaneBoundsWarning [[5]] 3 = none ∧
      kpconvBoundsWarning [[5]] 3 = some (5, 3) := by
  refine ⟨by decide, rfl, by decide⟩

/-- C2 as amended: whenever the neighbor table holds an index reaching the
padded support-point count, `KPConv.forward` reports the offending maximal
index together with the padded table size (and clamps nothing), while
`TriplaneConv.forward` performs no bounds check and reports nothing. -/
theorem C2_bounds_check_amended (inds : List (List ℕ)) (L : ℕ) (h : L ≤ tableMax inds) :
    kpconvBoundsWarning inds L = some (tableMax inds, L) ∧
      triplaneBoundsWarning inds L = none := by
  refine ⟨?_, rfl⟩
  unfold kpconvBoundsWarning
  rw [if_pos h]

/-- Witness for the amended C2 at the concrete out-of-bounds table `[[5]]`. -/
theorem C2_bounds_check_amended_witness :
    3 ≤ tableMax [[5]] ∧
      (kpconvBoundsWarning [[5]] 3 = some (tableMax [[5]], 3) ∧
        triplaneBoundsWarning [[5]] 3 = none) :=
  ⟨by decide, C2_bounds_check_amended [[5]] 3 (by decide)⟩

/-- C10: the `aggregation_mode` constructor argument of `TriplaneConv` is
accepted but never read: two instances built from the same draws with different
modes have identical state and identical forward outputs on every input. -/
theorem C10_triplane_aggregation_mode_inert (ks pd ci co li : ℕ) (mode mode' : String)
    (randPlanes : Ten3) (randMat linW : Mat2) (linb : ℕ → ℝ) (tf : TFFun)
    (q_pts s_pts : Mat2) (sLen : ℕ) (indsL : List (List ℕ)) (k : ℕ) (r : ℝ)
    (x : Mat2) (xRows : ℕ) :
    triplaneInit ks pd ci co li mode randPlanes randMat linW linb =
        triplaneInit ks pd ci co li mode' randPlanes randMat linW linb ∧
      triplaneForward (triplaneInit ks pd ci co li mode randPlanes randMat linW linb)
          tf q_pts s_pts sLen indsL k r x xRows =
        triplaneForward (triplaneInit ks pd ci co li mode' randPlanes randMat linW linb)
          tf q_pts s_pts sLen indsL k r x xRows :=
  ⟨rfl, rfl⟩

/-- C9: a forward pass reads but never writes the learned parameters: after
`KPConv.forward` the kernel points, static weights, weight bank, factor planes,
offset bias and generator parameters are unchanged (only the scratch
attributes `min_d2`, `deformed_KP`, `offset_features` may be rewritten), and
`TriplaneConv.forward` returns its state entirely untouched. -/
theorem C9_forward_never_mutates_parameters (offsetFwd : OffsetFn) (tf : TFFun)
    (s : KPConvState) (q_pts s_pts : Mat2) (sLen : ℕ) (indsL : List (List ℕ)) (k : ℕ)
    (x : Mat2) (xRows : ℕ) (st : TriplaneState) (tf2 : TFFun) (q2 s2 : Mat2)
    (sLen2 : ℕ) (inds2 : List (List ℕ)) (k2 : ℕ) (r2 : ℝ) (x2 : Mat2) (xr2 : ℕ) :
    ((kpconvForward offsetFwd tf s q_pts s_pts sLen indsL k x xRows).1.kernel_points = s.kernel_points ∧
      (kpconvForward offsetFwd tf s q_pts s_pts sLen indsL k x xRows).1.weights = s.weights ∧
      (kpconvForward offsetFwd tf s q_pts s_pts sLen indsL k x xRows).1.matrice = s.matrice ∧
      (kpconvForward offsetFwd tf s q_pts s_pts sLen indsL k x xRows).1.nei_plane = s.nei_plane ∧
      (kpconvForward offsetFwd tf s q_pts s_pts sLen indsL k x xRows).1.offset_bias = s.offset_bias ∧
      (kpconvForward offsetFwd tf s q_pts s_pts sLen indsL k x xRows).1.genW = s.genW ∧
      (kpconvForward offsetFwd tf s q_pts s_pts sLen indsL k x xRows).1.genB = s.genB) ∧
      (triplaneForward st tf2 q2 s2 sLen2 inds2 k2 r2 x2 xr2).1 = st := by
  constructor
  · cases hd : s.deformable <;> simp [kpconvForward, hd]
  · cases h1 : st.depth_wise <;> cases h2 : st.with_trick <;> simp [triplaneForward, h1, h2]

/-- C3: every unrecognized configuration string fails fast at its dispatch
site: an unknown influence-function kind and an unknown aggregation mode raise
`ValueError` inside the `KPConv.forward` dispatch before any output is built,
and an unknown block-name string raises in the factory `block_decider` at
construction, naming the offending string. -/
theorem C3_unknown_config_fails_fast (kind mode name : String)
    (h1 : kind ≠ "constant") (h2 : kind ≠ "linear") (h3 : kind ≠ "gaussian")
    (h4 : mode ≠ "closest") (h5 : mode ≠ "sum")
    (h6 : name ∉ recognizedBlockNames) :
    (∀ extent, kpInfluenceFn kind extent =
        Except.error "Unknown influence function type (config.KP_influence)") ∧
      (∀ sqdRow wRow, kpAggregate mode sqdRow wRow =
        Except.error "Unknown convolution mode. Should be closest or sum") ∧
      block_decider name =
        Except.error ("Unknown block name in the architecture definition : " ++ name) := by
  have hu : ¬name = "unary" := fun e => h6 (by rw [e]; simp [recognizedBlockNames])
  have hs : ¬name ∈ simpleNames := fun e => h6 (by simp [recognizedBlockNames, e])
  have hr : ¬name ∈ resnetbNames := fun e => h6 (by simp [recognizedBlockNames, e])
  have hmp : ¬(name = "max_pool" ∨ name = "max_pool_wide") := by
    rintro (e | e) <;> exact h6 (by rw [e]; simp [recognizedBlockNames])
  have hga : ¬name = "global_average" := fun e => h6 (by rw [e]; simp [recognizedBlockNames])
  have hnu : ¬name = "nearest_upsample" := fun e => h6 (by rw [e]; simp [recognizedBlockNames])
  refine ⟨?_, ?_, ?_⟩
  · intro extent
    unfold kpInfluenceFn
    rw [if_neg h1, if_neg h2, if_neg h3]
  · intro sqdRow wRow
    unfold kpAggregate
    rw [if_neg h4, if_neg h5]
  · unfold block_decider
    rw [if_neg hu, if_neg hs, if_neg hr, if_neg hmp, if_neg hga, if_neg hnu]

/-- Witness for C3 at the concrete unrecognized strings foo, bar and baz. -/
theorem C3_unknown_config_fails_fast_witness :
    ("foo" ≠ "constant" ∧ "bar" ≠ "closest" ∧ "baz" ∉ recognizedBlockNames) ∧
      ((∀ extent, kpInfluenceFn "foo" extent =
          Except.error "Unknown influence function type (config.KP_influence)") ∧
        (∀ sqdRow wRow, kpAggregate "bar" sqdRow wRow =
          Except.error "Unknown convolution mode. Should be closest or sum") ∧
        block_decider "baz" =
          Except.error ("Unknown block name in the architecture definition : " ++ "baz")) :=
  ⟨⟨by decide, by decide, by decide⟩,
    C3_unknown_config_fails_fast "foo" "bar" "baz" (by decide) (by decide) (by decide)
      (by decide) (by decide) (by decide)⟩

/-- C4: with a positive extent, the linear influence weight is non-increasing
in the distance and is exactly 0 at distance = extent, and the gaussian
influence weight with sigma = 0.3 * extent (and the additive epsilon the source
uses) is strictly positive everywhere and strictly decreasing in the distance. -/
theorem C4_influence_weight_shape (extent d dp : ℝ)
    (hext : 0 < extent) (hd : 0 ≤ d) (hlt : d < dp) :
    linearInfluence (dp ^ 2) extent ≤ linearInfluence (d ^ 2) extent ∧
      linearInfluence (extent ^ 2) extent = 0 ∧
      0 < radius_gaussian (d ^ 2) (extent * 0.3) 1e-9 ∧
      radius_gaussian (dp ^ 2) (extent * 0.3) 1e-9 <
        radius_gaussian (d ^ 2) (extent * 0.3) 1e-9 := by
  have hdp : 0 ≤ dp := hd.trans hlt.le
  refine ⟨?_, ?_, ?_, ?_⟩
  · unfold linearInfluence
    rw [Real.sqrt_sq hd, Real.sqrt_sq hdp]
    exact max_le_max (sub_le_sub_left ((div_le_div_iff_of_pos_right hext).mpr hlt.le) 1) le_rfl
  · unfold linearInfluence
    rw [Real.sqrt_sq hext.le, div_self hext.ne']
    simp
  · exact Real.exp_pos _
  · unfold radius_gaussian
    apply Real.exp_lt_exp.mpr
    have hden : (0 : ℝ) < 2 * (extent * 0.3) ^ 2 + 1e-9 := by positivity
    rw [neg_div, neg_div]
    exact neg_lt_neg ((div_lt_div_iff_of_pos_right hden).mpr (by nlinarith))

/-- Witness for C4 at extent 1 and distances 0 and 1. -/
theorem C4_influence_weight_shape_witness :
    ((0 : ℝ) < 1 ∧ (0 : ℝ) ≤ 0 ∧ (0 : ℝ) < 1) ∧
      (linearInfluence ((1 : ℝ) ^ 2) 1 ≤ linearInfluence ((0 : ℝ) ^ 2) 1 ∧
        linearInfluence ((1 : ℝ) ^ 2) 1 = 0 ∧
        0 < radius_gaussian ((0 : ℝ) ^ 2) (1 * 0.3) 1e-9 ∧
        radius_gaussian ((1 : ℝ) ^ 2) (1 * 0.3) 1e-9 <
          radius_gaussian ((0 : ℝ) ^ 2) (1 * 0.3) 1e-9) :=
  ⟨⟨by norm_num, le_refl 0, by norm_num⟩,
    C4_influence_weight_shape 1 0 1 (by norm_num) (le_refl 0) (by norm_num)⟩

/-- Per-axis corner analysis of `bilinear_interpolation`: a coordinate lying
exactly on grid line `i` (under the [0,1] aligned-corners convention, so the
input is `i / (res - 1)`) selects a cell whose weight 1 sits on grid line `i`:
for an interior line the lower corner carries weight `wa = 1`, and for the last
line the clamped upper corner carries weight `wb = 1`. -/
theorem axisCell_corner (res i : ℕ) (hres : 2 ≤ res) (hi : i < res) :
    axisCell res ((i : ℚ) / ((res : ℚ) - 1)) = ⟨(i : ℤ), (i : ℤ) + 1, 1, 0⟩ ∨
      axisCell res ((i : ℚ) / ((res : ℚ) - 1)) = ⟨(res : ℤ) - 2, (i : ℤ), 0, 1⟩ := by
  have h2 : (2 : ℚ) ≤ (res : ℚ) := by exact_mod_cast hres
  have hR0 : ((res : ℚ) - 1) ≠ 0 := by linarith
  have hx : ((i : ℚ) / ((res : ℚ) - 1)) * ((res : ℚ) - 1) = (i : ℚ) :=
    div_mul_cancel₀ _ hR0
  by_cases hc : i + 1 < res
  · left
    have hile : (i : ℚ) + 2 ≤ (res : ℚ) := by exact_mod_cast hc
    have hmin : min ((i : ℚ)) ((res : ℚ) - 1 - 1 / 100000) = (i : ℚ) :=
      min_eq_left (by linarith)
    have hmax : max 0 ((i : ℚ)) = (i : ℚ) := max_eq_right (by positivity)
    have hfl : ⌊(i : ℚ)⌋ = (i : ℤ) := Int.floor_natCast i
    have hi1 : (i : ℤ) + 1 ≤ (res : ℤ) - 1 := by omega
    have hx2 : max 0 (min ((i : ℤ) + 1) ((res : ℤ) - 1)) = (i : ℤ) + 1 := by
      rw [min_eq_left hi1, max_eq_right (by positivity)]
    simp only [axisCell, hx, hmin, hmax, hfl, hx2, AxisCell.mk.injEq]
    refine ⟨trivial, trivial, by push_cast; ring, by push_cast; ring⟩
  · right
    have hieq : i + 1 = res := by omega
    have hiq : (i : ℚ) = (res : ℚ) - 1 := by
      have : ((i : ℚ)) + 1 = (res : ℚ) := by exact_mod_cast hieq
      linarith
    have hmin : min ((i : ℚ)) ((res : ℚ) - 1 - 1 / 100000) = (res : ℚ) - 1 - 1 / 100000 :=
      min_eq_right (by rw [hiq]; linarith)
    have hmax : max 0 ((res : ℚ) - 1 - 1 / 100000) = (res : ℚ) - 1 - 1 / 100000 :=
      max_eq_right (by linarith)
    have hfl : ⌊(res : ℚ) - 1 - 1 / 100000⌋ = (res : ℤ) - 2 := by
      rw [Int.floor_eq_iff]
      constructor
      · push_cast
        linarith
      · push_cast
        linarith
    have hx2 : max 0 (min ((res : ℤ) - 2 + 1) ((res : ℤ) - 1)) = (res : ℤ) - 1 := by
      have : (res : ℤ) - 2 + 1 = (res : ℤ) - 1 := by ring
      rw [this, min_self, max_eq_right (by omega)]
    have hi' : (i : ℤ) = (res : ℤ) - 1 := by omega
    simp only [axisCell, hx, hmin, hmax, hfl, hx2, AxisCell.mk.injEq]
    refine ⟨trivial, by omega, ?_, ?_⟩
    · rw [hiq]
      push_cast
      ring
    · rw [hiq]
      push_cast
      ring

/-- C5: bilinear sampling of a factor plane at an exact grid corner, under the
[0,1]-per-axis normalization with aligned corners used by
`bilinear_interpolation`, returns exactly the value stored at that corner. -/
theorem C5_bilinear_corner_exact (res i j : ℕ) (g : ℤ → ℤ → ℚ)
    (hres : 2 ≤ res) (hi : i < res) (hj : j < res) :
    bilinearSample g res ((i : ℚ) / ((res : ℚ) - 1)) ((j : ℚ) / ((res : ℚ) - 1)) =
      g (j : ℤ) (i : ℤ) := by
  rcases axisCell_corner res i hres hi with hcx | hcx <;>
    rcases axisCell_corner res j hres hj with hcy | hcy <;>
      · simp only [bilinearSample, hcx, hcy]
        ring

/-- Concrete factor plane used by the C5 witness. -/
def cornerPlane : ℤ → ℤ → ℚ := fun a b => (a : ℚ) + 2 * (b : ℚ)

/-- Witness for C5 on a 2 by 2 plane at the corner (1, 0). -/
theorem C5_bilinear_corner_exact_witness :
    ((2 : ℕ) ≤ 2 ∧ 1 < 2 ∧ 0 < 2) ∧
      bilinearSample cornerPlane 2 (((1 : ℕ) : ℚ) / (((2 : ℕ) : ℚ) - 1))
          (((0 : ℕ) : ℚ) / (((2 : ℕ) : ℚ) - 1)) =
        cornerPlane ((0 : ℕ) : ℤ) ((1 : ℕ) : ℤ) :=
  ⟨⟨by decide, by decide, by decide⟩,
    C5_bilinear_corner_exact 2 1 0 cornerPlane (by decide) (by decide) (by decide)⟩

/-- Statement of the depth-wise contract following the words of the spec: the
output is the final learned linear mixing applied to the element-wise product
of a per-channel filter sampled from the tensor field (accumulated over the
sampled neighborhood positions) with the feature vector of the first-column
neighbor only. -/
noncomputable def depthWiseSpecOutput (s : TriplaneState) (tf : TFFun)
    (q_pts s_pts : Mat2) (sLen : ℕ) (indsL : List (List ℕ)) (k : ℕ) (r : ℝ)
    (x : Mat2) (xRows : ℕ) : Mat2 :=
  fun n o =>
    linearApply s.linW s.linb s.cin
      (fun i =>
        (∑ j in Finset.range k,
            tf s.nei_plane
              (normNeighbors q_pts (shadowPadPts s_pts sLen)
                (fun a b => (indsL.getD a []).getD b 0) r) (n * k + j) i) *
          shadowPadFeat x xRows ((indsL.getD n []).getD 0 0) i) o

/-- C6: in depth-wise mode the forward output coincides with the spec-side
formula (tensor-field filter, applied element-wise to the first-column
neighbor features, then the learned linear mixing), and it is invariant to the
features of every row other than the first-column neighbor. -/
theorem C6_depth_wise_refines_spec (s : TriplaneState) (tf : TFFun)
    (q_pts s_pts : Mat2) (sLen : ℕ) (indsL : List (List ℕ)) (k : ℕ) (r : ℝ)
    (x : Mat2) (xRows : ℕ) (n o : ℕ) (hdw : s.depth_wise = true) :
    (triplaneForward s tf q_pts s_pts sLen indsL k r x xRows).2.2 n o =
        depthWiseSpecOutput s tf q_pts s_pts sLen indsL k r x xRows n o ∧
      ∀ x' : Mat2, (∀ i, x' ((indsL.getD n []).getD 0 0) i = x ((indsL.getD n []).getD 0 0) i) →
        (triplaneForward s tf q_pts s_pts sLen indsL k r x' xRows).2.2 n o =
          (triplaneForward s tf q_pts s_pts sLen indsL k r x xRows).2.2 n o := by
  constructor
  · simp only [triplaneForward, hdw, if_true, depth_wise_conv, depthWiseSpecOutput, linearApply]
    congr 1
    apply Finset.sum_congr rfl
    intro i _
    rw [Finset.sum_mul]
  · intro x' hx'
    have hfe : ∀ i, shadowPadFeat x' xRows ((indsL.getD n []).getD 0 0) i =
        shadowPadFeat x xRows ((indsL.getD n []).getD 0 0) i := by
      intro i
      unfold shadowPadFeat
      split
      · rfl
      · exact hx' i
    simp only [triplaneForward, hdw, if_true, depth_wise_conv, linearApply]
    congr 1
    apply Finset.sum_congr rfl
    intro i _
    congr 1
    apply Finset.sum_congr rfl
    intro j _
    rw [hfe i]

/-- Concrete depth-wise state used by the C6 witness. -/
noncomputable def dwWitnessState : TriplaneState :=
  { calc_scores := "softmax", depth_wise := true, with_trick := false, k_cin := false,
    no_mlp := false, method := "Triplane", baseGridSize := 128, neiGridSize := 128,
    n_comp := 8, m := 8, cin := 1, cout := 1,
    nei_plane := fun _ _ _ => 0, matrice := fun _ _ => 0,
    linW := fun _ _ => 1, linb := fun _ => 0 }

/-- Concrete tensor-field sampler used by the C6 witness. -/
noncomputable def dwWitnessTF : TFFun := fun _ _ => fun _ _ => 1

/-- Concrete all-zero matrix used by the C6 witness. -/
noncomputable def dwZero : Mat2 := fun _ _ => 0

/-- Witness for C6 at a one-point, one-neighbor instance. -/
theorem C6_depth_wise_refines_spec_witness :
    dwWitnessState.depth_wise = true ∧
      ((triplaneForward dwWitnessState dwWitnessTF dwZero dwZero 1 [[0]] 1 1 dwZero 1).2.2 0 0 =
          depthWiseSpecOutput dwWitnessState dwWitnessTF dwZero dwZero 1 [[0]] 1 1 dwZero 1 0 0 ∧
        ∀ x' : Mat2,
          (∀ i, x' ((([[(0 : ℕ)]] : List (List ℕ)).getD 0 []).getD 0 0) i =
              dwZero ((([[(0 : ℕ)]] : List (List ℕ)).getD 0 []).getD 0 0) i) →
            (triplaneForward dwWitnessState dwWitnessTF dwZero dwZero 1 [[0]] 1 1 x' 1).2.2 0 0 =
              (triplaneForward dwWitnessState dwWitnessTF dwZero dwZero 1 [[0]] 1 1 dwZero 1).2.2 0 0) :=
  ⟨rfl, C6_depth_wise_refines_spec dwWitnessState dwWitnessTF dwZero dwZero 1 [[0]] 1 1 dwZero 1 0 0 rfl⟩

/-! ### Combinatorics of the re-packed neighbor table (claim C1) -/

/-- Every member of a list is at most its `foldr max 0`. -/
lemma le_foldrMax {l : List ℕ} {x : ℕ} (h : x ∈ l) : x ≤ l.foldr max 0 := by
  induction l with
  | nil => cases h
  | cons a t ih =>
    rcases List.mem_cons.mp h with h | h
    · subst h
      exact le_max_left _ _
    · exact (ih h).trans (le_max_right _ _)

/-- An upper bound of every member bounds `foldr max 0`. -/
lemma foldrMax_le {l : List ℕ} {c : ℕ} (h : ∀ x ∈ l, x ≤ c) : l.foldr max 0 ≤ c := by
  induction l with
  | nil => exact Nat.zero_le c
  | cons a t ih =>
    exact max_le (h a (List.mem_cons_self a t)) (ih (fun x hx => h x (List.mem_cons_of_mem a hx)))

/-- Positions of `range` whose boolean is true are exactly as many as the true
entries of the boolean list. -/
lemma trueFilter_length (bs : List Bool) :
    ((List.range bs.length).filter (fun p => bs.getD p false)).length = countTrue bs := by
  induction bs using List.reverseRecOn with
  | nil => rfl
  | append_singleton l b ih =>
    have hlen : (l ++ [b]).length = l.length + 1 := by simp
    have hcong : (List.range l.length).filter (fun p => (l ++ [b]).getD p false) =
        (List.range l.length).filter (fun p => l.getD p false) := by
      apply List.filter_congr
      intro a ha
      rw [List.getD_append _ _ _ _ (List.mem_range.mp ha)]
    have hlast : (l ++ [b]).getD l.length false = b := by
      rw [List.getD_append_right _ _ _ _ le_rfl, Nat.sub_self]
      rfl
    have hct : countTrue (l ++ [b]) = countTrue l + (if b then 1 else 0) := by
      unfold countTrue
      rw [List.countP_append]
      cases b <;> rfl
    rw [hlen, List.range_succ, List.filter_append, List.length_append, hcong, ih, hct]
    cases hb : b <;> simp [List.filter_cons, hlast, hb]

/-- A boolean filter and its negation partition the length of a list. -/
lemma filter_partition_length (l : List ℕ) (q : ℕ → Bool) :
    (l.filter q).length + (l.filter (fun a => !q a)).length = l.length := by
  induction l with
  | nil => rfl
  | cons a t ih =>
    cases hq : q a <;> simp [List.filter_cons, hq] <;> omega

/-- Positions of `range` whose boolean is false are the complement count. -/
lemma falseFilter_length (bs : List Bool) :
    ((List.range bs.length).filter (fun p => !bs.getD p false)).length =
      bs.length - countTrue bs := by
  have h := filter_partition_length (List.range bs.length) (fun p => bs.getD p false)
  have h2 := trueFilter_length bs
  rw [List.length_range] at h
  omega

/-- True entries are at most the length of the boolean list. -/
lemma countTrue_le_length (bs : List Bool) : countTrue bs ≤ bs.length :=
  List.countP_le_length ..

/-- Characterization of one re-packed row: with the new width `m` between the
in-range count and the row width and with every in-range slot holding a real
(below-sentinel) index, the row has length `m`, exactly `countTrue bs`
non-sentinel entries, and exactly `m - countTrue bs` sentinel entries. -/
lemma repackRow_spec (indsRow : List ℕ) (bs : List Bool) (m S : ℕ)
    (hm1 : countTrue bs ≤ m) (hm2 : m ≤ bs.length)
    (hreal : ∀ p, p < bs.length → bs.getD p false = true → indsRow.getD p 0 < S) :
    (repackRow indsRow bs m S).length = m ∧
      ((repackRow indsRow bs m S).filter (fun a => a ≠ S)).length = countTrue bs ∧
      (repackRow indsRow bs m S).count S = m - countTrue bs := by
  classical
  set f : ℕ → ℕ := fun p => if bs.getD p false then indsRow.getD p 0 else S with hf
  set T := (List.range bs.length).filter (fun p => bs.getD p false) with hT
  set F := (List.range bs.length).filter (fun p => !bs.getD p false) with hFdef
  have hTlen : T.length = countTrue bs := trueFilter_length bs
  have hFlen : F.length = bs.length - countTrue bs := falseFilter_length bs
  have htake : topkIdx bs m = T ++ F.take (m - T.length) := by
    unfold topkIdx
    rw [← hT, ← hFdef, List.take_append_eq_append_take,
      List.take_of_length_le (by omega : T.length ≤ m)]
  have hrow : repackRow indsRow bs m S = T.map f ++ (F.take (m - T.length)).map f := by
    unfold repackRow
    rw [htake, List.map_append]
  have hTvals : ∀ a ∈ T.map f, a < S := by
    intro a ha
    obtain ⟨p, hp, rfl⟩ := List.mem_map.mp ha
    have hmem := List.mem_filter.mp hp
    have hplt : p < bs.length := List.mem_range.mp hmem.1
    have hb : bs.getD p false = true := hmem.2
    show f p < S
    rw [hf]
    simp only [hb, if_true]
    exact hreal p hplt hb
  have hFvals : ∀ a ∈ (F.take (m - T.length)).map f, a = S := by
    intro a ha
    obtain ⟨p, hp, rfl⟩ := List.mem_map.mp ha
    have hmem := List.mem_filter.mp (List.take_subset _ _ hp)
    have hb : bs.getD p false = false := by
      have := hmem.2
      simpa using this
    show f p = S
    simp only [hf]
    rw [hb]
    simp
  have hFtakelen : ((F.take (m - T.length)).map f).length = m - countTrue bs := by
    rw [List.length_map, List.length_take, hFlen, hTlen]
    omega
  refine ⟨?_, ?_, ?_⟩
  · rw [hrow, List.length_append, List.length_map, hFtakelen, hTlen]
    omega
  · rw [hrow, List.filter_append, List.length_append]
    have h1 : (T.map f).filter (fun a => a ≠ S) = T.map f := by
      apply List.filter_eq_self.mpr
      intro a ha
      simpa using Nat.ne_of_lt (hTvals a ha)
    have h2 : ((F.take (m - T.length)).map f).filter (fun a => a ≠ S) = [] := by
      apply List.filter_eq_nil_iff.mpr
      intro a ha
      simpa using hFvals a ha
    rw [h1, h2, List.length_map, hTlen]
    simp
  · rw [hrow, List.count_append]
    have h1 : (T.map f).count S = 0 := by
      apply List.count_eq_zero.mpr
      intro hmem
      exact absurd (hTvals S hmem) (lt_irrefl S)
    have h2 : ((F.take (m - T.length)).map f).count S = ((F.take (m - T.length)).map f).length := by
      apply List.count_eq_length.mpr
      intro b hb
      exact (hFvals b hb).symm
    rw [h1, h2, hFtakelen]
    omega

/-- C1, counterexample to the claim as stated: one query point with k = 2
neighbors of which exactly j = 1 is in range of the single kernel point. The
new width is the batch maximum of in-range counts, here 1, so the re-packed
row is `[0]`: it holds the j = 1 surviving entries but zero sentinel entries,
not the claimed `k - j = 1` sentinel entries. -/
theorem C1_counterexample_sentinel_count :
    countTrue (inRangeRow [[(0 : ℚ)], [9]] 1) = 1 ∧
      (deformRepack [[0, 1]] [[[(0 : ℚ)], [9]]] 1 2).getD 0 [] = [0] ∧
      ((deformRepack [[0, 1]] [[[(0 : ℚ)], [9]]] 1 2).getD 0 []).count 2 ≠ 2 - 1 := by
  decide

/-- C1 as amended: for every point of the batch, if exactly `j` of its `k`
neighbors are within the extent of some kernel point and every surviving slot
held a real (non-sentinel) index, then its re-packed row has the new padded
width `M` (the batch maximum of in-range counts), with exactly `j` non-sentinel
entries and `M - j` sentinel entries; the claimed `k - j` only coincides when
`M = k`. -/
theorem C1_deformable_filtering_amended (neighbInds : List (List ℕ))
    (sqd : List (List (List ℚ))) (ext2 : ℚ) (S n k : ℕ)
    (hlen : neighbInds.length = sqd.length) (hn : n < sqd.length)
    (hk : ∀ r ∈ sqd, r.length = k)
    (hreal : ∀ p, p < k → (inRangeRow (sqd.getD n []) ext2).getD p false = true →
        (neighbInds.getD n []).getD p 0 < S) :
    ((deformRepack neighbInds sqd ext2 S).getD n []).length =
        batchNewMax (sqd.map (fun r => inRangeRow r ext2)) ∧
      (((deformRepack neighbInds sqd ext2 S).getD n []).filter (fun a => a ≠ S)).length =
        countTrue (inRangeRow (sqd.getD n []) ext2) ∧
      ((deformRepack neighbInds sqd ext2 S).getD n []).count S =
        batchNewMax (sqd.map (fun r => inRangeRow r ext2)) -
          countTrue (inRangeRow (sqd.getD n []) ext2) := by
  have hn' : n < neighbInds.length := by omega
  have hrowEq : (deformRepack neighbInds sqd ext2 S).getD n [] =
      repackRow (neighbInds.getD n []) (inRangeRow (sqd.getD n []) ext2)
        (batchNewMax (sqd.map (fun r => inRangeRow r ext2))) S := by
    unfold deformRepack
    have hlen1 : n < ((List.zip neighbInds (sqd.map (fun r => inRangeRow r ext2))).map
        (fun pr => repackRow pr.1 pr.2
          (batchNewMax (sqd.map (fun r => inRangeRow r ext2))) S)).length := by
      simp only [List.length_map, List.length_zip]
      omega
    rw [List.getD_eq_getElem _ _ hlen1, List.getElem_map, List.getElem_zip, List.getElem_map,
      List.getD_eq_getElem _ _ hn', List.getD_eq_getElem _ _ hn]
  have hmemn : sqd.getD n [] ∈ sqd := by
    rw [List.getD_eq_getElem _ _ hn]
    exact List.getElem_mem ..
  have hbs_len : (inRangeRow (sqd.getD n []) ext2).length = k := by
    unfold inRangeRow
    rw [List.length_map]
    exact hk _ hmemn
  have hMdef : batchNewMax (sqd.map (fun r => inRangeRow r ext2)) =
      ((sqd.map (fun r => inRangeRow r ext2)).map countTrue).foldr max 0 := rfl
  have hm1 : countTrue (inRangeRow (sqd.getD n []) ext2) ≤
      batchNewMax (sqd.map (fun r => inRangeRow r ext2)) := by
    rw [hMdef]
    apply le_foldrMax
    apply List.mem_map.mpr
    exact ⟨inRangeRow (sqd.getD n []) ext2,
      List.mem_map.mpr ⟨sqd.getD n [], hmemn, rfl⟩, rfl⟩
  have hm2 : batchNewMax (sqd.map (fun r => inRangeRow r ext2)) ≤ k := by
    rw [hMdef]
    apply foldrMax_le
    intro xv hxv
    obtain ⟨b, hb, rfl⟩ := List.mem_map.mp hxv
    obtain ⟨r, hr, rfl⟩ := List.mem_map.mp hb
    calc countTrue (inRangeRow r ext2) ≤ (inRangeRow r ext2).length :=
          countTrue_le_length _
      _ = r.length := List.length_map ..
      _ = k := hk r hr
  have hspec := repackRow_spec (neighbInds.getD n []) (inRangeRow (sqd.getD n []) ext2)
    (batchNewMax (sqd.map (fun r => inRangeRow r ext2))) S hm1 (by omega)
    (fun p hp hb => hreal p (by omega) hb)
  rw [hrowEq]
  exact hspec

/-- Witness for the amended C1: a batch of two points with k = 2 where point 0
has 1 in-range neighbor and point 1 has 2, so the new width is M = 2 and the
row of point 0 re-packs to one real entry plus one sentinel. -/
theorem C1_deformable_filtering_amended_witness :
    (([[0, 1], [2, 3]] : List (List ℕ)).length =
        ([[[(0 : ℚ)], [9]], [[0], [0]]] : List (List (List ℚ))).length ∧
      0 < ([[[(0 : ℚ)], [9]], [[0], [0]]] : List (List (List ℚ))).length ∧
      (∀ r ∈ ([[[(0 : ℚ)], [9]], [[0], [0]]] : List (List (List ℚ))), r.length = 2) ∧
      (∀ p, p < 2 →
        (inRangeRow (([[[(0 : ℚ)], [9]], [[0], [0]]] :
            List (List (List ℚ))).getD 0 []) 1).getD p false = true →
        (([[0, 1], [2, 3]] : List (List ℕ)).getD 0 []).getD p 0 < 4)) ∧
      (((deformRepack [[0, 1], [2, 3]] [[[(0 : ℚ)], [9]], [[0], [0]]] 1 4).getD 0 []).length =
          batchNewMax (([[[(0 : ℚ)], [9]], [[0], [0]]] :
            List (List (List ℚ))).map (fun r => inRangeRow r 1)) ∧
        (((deformRepack [[0, 1], [2, 3]] [[[(0 : ℚ)], [9]], [[0], [0]]] 1 4).getD 0 []).filter
            (fun a => a ≠ 4)).length =
          countTrue (inRangeRow (([[[(0 : ℚ)], [9]], [[0], [0]]] :
            List (List (List ℚ))).getD 0 []) 1) ∧
        ((deformRepack [[0, 1], [2, 3]] [[[(0 : ℚ)], [9]], [[0], [0]]] 1 4).getD 0 []).count 4 =
          batchNewMax (([[[(0 : ℚ)], [9]], [[0], [0]]] :
              List (List (List ℚ))).map (fun r => inRangeRow r 1)) -
            countTrue (inRangeRow (([[[(0 : ℚ)], [9]], [[0], [0]]] :
              List (List (List ℚ))).getD 0 []) 1)) :=
  ⟨⟨by decide, by decide, by decide, by decide⟩,
    C1_deformable_filtering_amended [[0, 1], [2, 3]] [[[(0 : ℚ)], [9]], [[0], [0]]] 1 4 0 2
      (by decide) (by decide) (by decide) (by decide)⟩

/-- Coherence of the embedding: the diagnostic stream of `kpconvForward` is
exactly the bounds-check warning computed against the padded support size. -/
lemma kpconvForward_warning_eq (offsetFwd : OffsetFn) (tf : TFFun) (s : KPConvState)
    (q_pts s_pts : Mat2) (sLen : ℕ) (indsL : List (List ℕ)) (k : ℕ)
    (x : Mat2) (xRows : ℕ) :
    (kpconvForward offsetFwd tf s q_pts s_pts sLen indsL k x xRows).2.1 =
      kpconvBoundsWarning indsL (sLen + 1) := by
  simp [kpconvForward]

/-- Coherence of the embedding: the diagnostic stream of `triplaneForward` is
exactly the (empty) diagnostic of the source forward. -/
lemma triplaneForward_warning_eq (s : TriplaneState) (tf : TFFun)
    (q_pts s_pts : Mat2) (sLen : ℕ) (indsL : List (List ℕ)) (k : ℕ)
    (neighb_r : ℝ) (x : Mat2) (xRows : ℕ) :
    (triplaneForward s tf q_pts s_pts sLen indsL k neighb_r x xRows).2.1 =
      triplaneBoundsWarning indsL (sLen + 1) := by
  cases h1 : s.depth_wise <;> cases h2 : s.with_trick <;>
    simp [triplaneForward, triplaneBoundsWarning, h1, h2]
